import Mathlib

/-!
Verification of the InfraDon2 character/message/comment application
(`src/unnamed/part_000`, the mature two-database PouchDB variant).

The PouchDB stores are modelled shallowly:

* JavaScript strings are lists of UTF-16 code units (`JStr := List Nat`),
  compared lexicographically exactly as the `<`/`<=` operators and CouchDB
  collation compare them.  `List Nat` carries Mathlib's lexicographic
  `LinearOrder`, which matches JavaScript's code-unit comparison.
* A database is a list of documents; `find` filters by the Mango
  selector, sorts by the requested sort order and applies `skip`/`limit`;
  `put` upserts by `_id`; `bulkDocs` with `_deleted: true` tombstones.
* Sequential (single-writer) executions of the mutation functions are
  modelled as pure state transformers; the conflict-retry harness and the
  two-writer interleavings of `likeCharacter` are modelled separately with
  an explicit revision token and an oracle / scheduler.
* Fallible storage (for the error-propagation claims) is modelled with
  `Except DbErr`, a thrown JavaScript exception being an `Except.error`.
-/

namespace InfraDon2

/-- A JavaScript string: the list of its UTF-16 code units. -/
abbrev JStr := List Nat

/-- `c` is one of the whitespace / line-terminator code units removed by
`String.prototype.trim`. -/
def isWsCode (c : Nat) : Bool :=
  (9 ≤ c && c ≤ 13) || c = 32 || c = 160 || c = 5760 ||
  (8192 ≤ c && c ≤ 8202) || c = 8232 || c = 8233 || c = 8239 ||
  c = 8287 || c = 12288 || c = 65279

/-- `String.prototype.trim`: strip whitespace from both ends. -/
def trim (s : JStr) : JStr :=
  ((s.dropWhile isWsCode).reverse.dropWhile isWsCode).reverse

/-- `String.prototype.toLowerCase` on the code points the application
manipulates (the ASCII fragment of the Unicode lowercase mapping). -/
def toLower (s : JStr) : JStr :=
  s.map (fun c => if 65 ≤ c ∧ c ≤ 90 then c + 32 else c)

/- The literal strings used as `type` discriminators ('character',
'comment', 'message'), written as their code-unit lists. -/

/-- The string `character`. -/
def strCharacter : JStr := [99, 104, 97, 114, 97, 99, 116, 101, 114]

/-- The string `comment`. -/
def strComment : JStr := [99, 111, 109, 109, 101, 110, 116]

/-- The string `message`. -/
def strMessage : JStr := [109, 101, 115, 115, 97, 103, 101]

/-- `CharacterDoc` (source interface `CharacterDoc`): a character document
of the `infradon-blaro-characters` database.  `_rev` is omitted from the
sequential model, where conflicts cannot arise; revisions are modelled
explicitly in the retry/interleaving models below. -/
structure CharacterDoc where
  _id : JStr
  name : JStr
  age : Int
  affiliation : JStr
  affiliationLower : JStr
  lightsaber : Bool
  likes : Int
  mediaContentType : Option JStr
deriving DecidableEq

/-- `MessageDoc` (source interface `MessageDoc`): a message document of the
`infradon-blaro-messages` database. -/
structure MessageDoc where
  _id : JStr
  characterId : JStr
  text : JStr
  textLower : JStr
  createdAt : JStr
  likes : Int
  mediaContentType : Option JStr
deriving DecidableEq

/-- `CommentDoc` (source interface `CommentDoc`): a comment document.
Comments live in the characters database (`dbChars.put(c)` in
`addComment`). -/
structure CommentDoc where
  _id : JStr
  messageId : JStr
  text : JStr
  createdAt : JStr
deriving DecidableEq

/-- A document of the characters database: the source stores both
`type: 'character'` and `type: 'comment'` documents there. -/
inductive CharsDbDoc where
  | char (d : CharacterDoc)
  | comment (d : CommentDoc)
deriving DecidableEq

/-- The `_id` of a characters-database document. -/
def CharsDbDoc.docId : CharsDbDoc → JStr
  | .char d => d._id
  | .comment d => d._id

/-- The local characters database (`infradon-blaro-characters`). -/
abbrev CharsDb := List CharsDbDoc

/-- The local messages database (`infradon-blaro-messages`). -/
abbrev MsgsDb := List MessageDoc

/-- `db.get(id)` on the characters database (sequential model): the stored
document with that `_id`, or `none` for a 404. -/
def getCharsDoc (db : CharsDb) (i : JStr) : Option CharsDbDoc :=
  db.find? (fun d => decide (d.docId = i))

/-- `db.get(id)` on the messages database (sequential model). -/
def getMsgDoc (db : MsgsDb) (i : JStr) : Option MessageDoc :=
  db.find? (fun m => decide (m._id = i))

/-- `db.put(doc)` on the characters database (sequential model, where the
revision check always passes): replace the document with the same `_id`,
or append the new document. -/
def putChars (db : CharsDb) (doc : CharsDbDoc) : CharsDb :=
  if db.any (fun d => decide (d.docId = doc.docId)) then
    db.map (fun d => if d.docId = doc.docId then doc else d)
  else
    db ++ [doc]

/-- `db.put(doc)` on the messages database (sequential model). -/
def putMsgs (db : MsgsDb) (doc : MessageDoc) : MsgsDb :=
  if db.any (fun m => decide (m._id = doc._id)) then
    db.map (fun m => if m._id = doc._id then doc else m)
  else
    db ++ [doc]

/-- `db.bulkDocs(docs.map(d => ({...d, _deleted: true})))` on the
characters database: tombstone every listed `_id`. -/
def bulkDeleteChars (db : CharsDb) (ids : List JStr) : CharsDb :=
  db.filter (fun d => !decide (d.docId ∈ ids))

/-- `db.bulkDocs(docs.map(d => ({...d, _deleted: true})))` on the messages
database. -/
def bulkDeleteMsgs (db : MsgsDb) (ids : List JStr) : MsgsDb :=
  db.filter (fun m => !decide (m._id ∈ ids))

/-- `removeWithRetry` (source lines 166-195), sequential model: `get` the
document and `remove` it.  With no concurrent writer the remove cannot
conflict, so the retry loop runs at most once; a missing document makes
`get` throw a 404, which is a non-conflict error: the loop breaks and
returns `false`. -/
def removeWithRetry (db : CharsDb) (i : JStr) : CharsDb × Bool :=
  match getCharsDoc db i with
  | some _ => (db.filter (fun d => !decide (d.docId = i)), true)
  | none => (db, false)

/-! ### Mutation layer (sequential model) -/

/-- The form state `newCharacter` fed to `addCharacter`. -/
structure NewCharacterInput where
  name : JStr
  age : Int
  affiliation : JStr
  lightsaber : Bool
  likes : Int
deriving DecidableEq

/-- `addCharacter` (source lines 688-723): build the character document
(with derived `affiliationLower`) under id `'character:' + iso()` and
`put` it.  `now` stands for the `iso()` timestamp.  (`likes || 0` equals
`likes` for every number the form produces.) -/
def addCharacter (chars : CharsDb) (input : NewCharacterInput) (now : JStr) : CharsDb :=
  putChars chars (.char
    { _id := strCharacter ++ [58] ++ now
      name := input.name
      age := input.age
      affiliation := input.affiliation
      affiliationLower := toLower input.affiliation
      lightsaber := input.lightsaber
      likes := input.likes
      mediaContentType := none })

/-- The edit-form state `editingCharacter` fed to `saveEdit`. -/
structure EditPatch where
  name : JStr
  age : Int
  affiliation : JStr
  lightsaber : Bool
  likes : Int
deriving DecidableEq

/-- The merge function of `saveEdit` (source lines 745-756): overwrite
`name`, `age`, `affiliation`, `affiliationLower` (re-derived) and
`lightsaber` from the patch; `likes` becomes
`Math.max(latest.likes ?? 0, patch.likes ?? 0)`.  (`typeof patch.likes
=== 'number'` always holds in the typed model.) -/
def mergeEdit (patch : EditPatch) (latest : CharacterDoc) : CharacterDoc :=
  { latest with
    name := patch.name
    age := patch.age
    affiliation := patch.affiliation
    affiliationLower := toLower patch.affiliation
    lightsaber := patch.lightsaber
    likes := max latest.likes patch.likes }

/-- `saveEdit` (source lines 735-769), sequential model of the
`saveWithConflictRetry` call: `get` the latest revision, apply
`mergeEdit`, `put` the result.  With no concurrent writer the first put
succeeds; a missing or non-character document leaves the store
unchanged. -/
def saveEdit (chars : CharsDb) (docId : JStr) (patch : EditPatch) : CharsDb :=
  match getCharsDoc chars docId with
  | some (.char latest) => putChars chars (.char (mergeEdit patch latest))
  | _ => chars

/-- `addMessage` (source lines 820-847): trim the entered text; a blank
text writes nothing; otherwise `put` the message document with derived
`textLower` under id `'message:' + iso()`. -/
def addMessage (msgs : MsgsDb) (characterId : JStr) (raw : JStr) (now : JStr) : MsgsDb :=
  let text := trim raw
  if text = [] then msgs
  else
    putMsgs msgs
      { _id := strMessage ++ [58] ++ now
        characterId := characterId
        text := text
        textLower := toLower text
        createdAt := now
        likes := 0
        mediaContentType := none }

/-- `saveEditMessage` (source lines 859-885), sequential model of the
`saveWithConflictRetry` call: overwrite `text` and re-derive
`textLower`. -/
def saveEditMessage (msgs : MsgsDb) (messageId : JStr) (newText : JStr) : MsgsDb :=
  match getMsgDoc msgs messageId with
  | some latest => putMsgs msgs { latest with text := newText, textLower := toLower newText }
  | none => msgs

/-- `addComment` (source lines 980-1008): trim the entered text; a blank
text writes nothing; otherwise `put` the comment document (into the
characters database) under id `'comment:' + iso()`. -/
def addComment (chars : CharsDb) (messageId : JStr) (raw : JStr) (now : JStr) : CharsDb :=
  let text := trim raw
  if text = [] then chars
  else
    putChars chars (.comment
      { _id := strComment ++ [58] ++ now
        messageId := messageId
        text := text
        createdAt := now })

/-- The messages-database `find` of `deleteCharacter` (source lines
783-786): `selector: { type: 'message', characterId }`.  All documents of
the messages database carry `type: 'message'`. -/
def messagesOf (msgs : MsgsDb) (characterId : JStr) : List MessageDoc :=
  msgs.filter (fun m => decide (m.characterId = characterId))

/-- The characters-database `find` of `deleteCharacter` (source lines
794-797): `selector: { type: 'comment', messageId: { $in: msgIds } }`. -/
def commentsOf (chars : CharsDb) (msgIds : List JStr) : List CharsDbDoc :=
  chars.filter (fun d =>
    match d with
    | .comment c => decide (c.messageId ∈ msgIds)
    | .char _ => false)

/-- `LIMIT_MESSAGES_PER_CHARACTER` and `LIMIT_COMMENTS` (source lines
122-123). -/
def FIND_LIMIT : Nat := 5000

/-- `deleteCharacter` (source lines 771-818): find the character's
messages (limit 5000), find their comments (limit 5000), bulk-tombstone
the comments, then the messages, then remove the character with retry.
Returns the two stores after the cascade. -/
def deleteCharacter (chars : CharsDb) (msgs : MsgsDb) (characterId : JStr) :
    CharsDb × MsgsDb :=
  let msgDocs := (messagesOf msgs characterId).take FIND_LIMIT
  let step :=
    if msgDocs.length ≠ 0 then
      let msgIds := msgDocs.map (fun m => m._id)
      let cmts := (commentsOf chars msgIds).take FIND_LIMIT
      let chars1 := if cmts.length ≠ 0 then bulkDeleteChars chars (cmts.map CharsDbDoc.docId) else chars
      (chars1, bulkDeleteMsgs msgs msgIds)
    else (chars, msgs)
  ((removeWithRetry step.1 characterId).1, step.2)

/-! ### Query layer (sequential model) -/

/-- The sort order requested by `searchMessages`:
`[{ textLower: 'asc' }, { createdAt: 'desc' }]` (the leading constant
`type` key sorts nothing). -/
def searchRel (a b : MessageDoc) : Prop :=
  a.textLower < b.textLower ∨ (a.textLower = b.textLower ∧ b.createdAt ≤ a.createdAt)

instance : DecidableRel searchRel := fun a b => by
  unfold searchRel; infer_instance

instance : IsTotal MessageDoc searchRel where
  total a b := by
    unfold searchRel
    rcases lt_trichotomy a.textLower b.textLower with h | h | h
    · exact Or.inl (Or.inl h)
    · rcases le_total a.createdAt b.createdAt with hc | hc
      · exact Or.inr (Or.inr ⟨h.symm, hc⟩)
      · exact Or.inl (Or.inr ⟨h, hc⟩)
    · exact Or.inr (Or.inl h)

instance : IsTrans MessageDoc searchRel where
  trans a b c hab hbc := by
    unfold searchRel at *
    rcases hab with h1 | ⟨e1, l1⟩
    · rcases hbc with h2 | ⟨e2, _⟩
      · exact Or.inl (h1.trans h2)
      · exact Or.inl (e2 ▸ h1)
    · rcases hbc with h2 | ⟨e2, l2⟩
      · exact Or.inl (e1 ▸ h2)
      · exact Or.inr ⟨e1.trans e2, l2.trans l1⟩

/-- `searchMessages` (source lines 1078-1163), the query part: lowercase
the trimmed input; a blank input is the clear-filter sentinel (`none`,
the source resets the view and refetches); otherwise run the range query
`textLower >= q AND textLower <= q + '￿'` (code unit 65535), sorted
by `textLower` ascending then `createdAt` descending, limit 500.
(`createdAt: { $gte: null }` matches every document under CouchDB
collation.) -/
def searchMessages (msgs : MsgsDb) (input : JStr) : Option (List MessageDoc) :=
  let q := toLower (trim input)
  if q = [] then none
  else
    some
      (((msgs.filter (fun m =>
            decide (q ≤ m.textLower) && decide (m.textLower ≤ q ++ [65535]))).insertionSort
          searchRel).take 500)

/-- The sort order requested by the top-messages query:
`[{ likes: 'desc' }]` (after the constant `type` key). -/
def likesDesc (a b : MessageDoc) : Prop := b.likes ≤ a.likes

instance : DecidableRel likesDesc := fun a b => by
  unfold likesDesc; infer_instance

instance : IsTotal MessageDoc likesDesc where
  total a b := le_total b.likes a.likes

instance : IsTrans MessageDoc likesDesc where
  trans _ _ _ hab hbc := le_trans hbc hab

/-- `TOP_PAGE_SIZE` (source line 110). -/
def TOP_PAGE_SIZE : Nat := 10

/-- The top-messages-by-likes query of `fetchData(true)` (source lines
471-477): `selector: { type: 'message', likes: { $gte: 0 } }`, sort
`likes` descending, `skip: page * TOP_PAGE_SIZE`, `limit:
TOP_PAGE_SIZE`.  `nextTopMessagesPage` / `prevTopMessagesPage` only move
`page`. -/
def topMessagesByLikes (msgs : MsgsDb) (page : Nat) : List MessageDoc :=
  (((msgs.filter (fun m => decide (0 ≤ m.likes))).insertionSort likesDesc).drop
      (page * TOP_PAGE_SIZE)).take TOP_PAGE_SIZE

/-! ### Derived-field invariants -/

/-- The derived-field invariant of one characters-database document:
characters satisfy `affiliationLower == affiliation.toLowerCase()`;
comments carry no derived field. -/
def charsDocInv : CharsDbDoc → Prop
  | .char c => c.affiliationLower = toLower c.affiliation
  | .comment _ => True

instance : DecidablePred charsDocInv := fun d => by
  unfold charsDocInv; cases d <;> infer_instance

/-- Every stored character satisfies `affiliationLower ==
affiliation.toLowerCase()`. -/
def charsInvariant (db : CharsDb) : Prop := ∀ d ∈ db, charsDocInv d

/-- Every stored message satisfies `textLower == text.toLowerCase()`. -/
def msgsInvariant (db : MsgsDb) : Prop := ∀ m ∈ db, m.textLower = toLower m.text

/-! ### The conflict-retry harness under an adversarial store (claim C1)

`saveWithConflictRetry` is modelled against an oracle describing what the
store does on each attempt: `getDoc i` is the document `getLatestDoc()`
returns on attempt `i` (an external writer may change it between
attempts), and `putDoc i merged` is the outcome of `db.put(merged)` on
attempt `i` — success, a 409 revision conflict, or another storage
error.  A thrown exception is an `Except.error`; the translation of the
`try/catch` shows where it is caught. -/

/-- Storage error taxonomy (`err.status === 409` distinguishes
conflicts). -/
inductive DbErr where
  | conflict
  | notFound
  | indexMissing
  | storageUnavailable
deriving DecidableEq

/-- What one call of `saveWithConflictRetry` did: the value it returned
(`none` is the source's `null`), how many get-merge-put iterations it
executed, and the successful `put`s it performed (the only store
modifications it can make). -/
structure RetryRun (T : Type) where
  result : Option T
  attemptsUsed : Nat
  writes : List T
deriving DecidableEq

/-- The store oracle a `saveWithConflictRetry` call runs against. -/
structure RetryOracle (T : Type) where
  getDoc : Nat → T
  putDoc : Nat → T → Except DbErr Unit

/-- The `while (attempt < maxRetries)` loop of `saveWithConflictRetry`
(source lines 140-160), with `fuel = maxRetries - attempt`: fetch the
latest revision, apply `mergeFn`, try to `put`; a 409 increments
`attempt` and loops, any other error breaks and returns `null`; an
exhausted loop returns `null`.  Every thrown error is consumed by the
`catch`, so the result is `Except.ok` on each path. -/
def retryGo {T : Type} (o : RetryOracle T) (mergeFn : T → T) :
    Nat → Nat → Except DbErr (RetryRun T)
  | _, 0 => .ok ⟨none, 0, []⟩
  | attempt, fuel + 1 =>
    let merged := mergeFn (o.getDoc attempt)
    match o.putDoc attempt merged with
    | .ok _ => .ok ⟨some merged, 1, [merged]⟩
    | .error e =>
      if e = DbErr.conflict then
        match retryGo o mergeFn (attempt + 1) fuel with
        | .ok r => .ok ⟨r.result, r.attemptsUsed + 1, r.writes⟩
        | .error e2 => .error e2
      else .ok ⟨none, 1, []⟩

/-- `saveWithConflictRetry` (source lines 127-164) with the default
`maxRetries = 3`. -/
def saveWithConflictRetry {T : Type} (o : RetryOracle T) (mergeFn : T → T)
    (maxRetries : Nat) : Except DbErr (RetryRun T) :=
  retryGo o mergeFn 0 maxRetries

/-! ### Two concurrent `likeCharacter` calls (claim C2)

Each `likeCharacter(id)` call is `saveWithConflictRetry` with merge
function `latest.likes = (latest.likes ?? 0) + 1`.  The shared document
is a pair of its `likes` value and its revision token; `db.put` succeeds
exactly when the revision offered matches the stored one, and a
successful put bumps the revision.  The two calls interleave at their
suspension points: `await getLatestDoc()` (the merge is synchronous and
happens atomically with the get) and `await db.put(...)`.  A schedule is
the list of which call moves next. -/

/-- The shared character document: its `likes` counter and its revision
token. -/
structure LikeDoc where
  likes : Int
  rev : Nat
deriving DecidableEq

/-- Where one `likeCharacter` call stands: about to `get` (attempt
number), about to `put` a merged document, returned successfully, or
returned `null` after exhausting its 3 attempts. -/
inductive LikePhase where
  | toGet (attempt : Nat)
  | toPut (attempt : Nat) (merged : LikeDoc)
  | retOk
  | retNull
deriving DecidableEq

/-- One atomic step of a `likeCharacter` call against the shared store:
the `get` reads the latest revision and applies the merge (`likes + 1`
on the re-read value, same revision); the `put` succeeds iff the
revision still matches (bumping it), and on a 409 retries while
`attempt + 1 < 3`, else returns `null`. -/
def likeStep (s : LikeDoc) : LikePhase → LikeDoc × LikePhase
  | .toGet attempt => (s, .toPut attempt ⟨s.likes + 1, s.rev⟩)
  | .toPut attempt m =>
    if m.rev = s.rev then ({ likes := m.likes, rev := s.rev + 1 }, .retOk)
    else if attempt + 1 < 3 then (s, .toGet (attempt + 1))
    else (s, .retNull)
  | .retOk => (s, .retOk)
  | .retNull => (s, .retNull)

/-- The joint state: the stored document and the two in-flight
`likeCharacter` calls. -/
structure LikeSys where
  store : LikeDoc
  a : LikePhase
  b : LikePhase
deriving DecidableEq

/-- Scheduler step: `true` advances call `a`, `false` advances `b`. -/
def likeSysStep (sys : LikeSys) (who : Bool) : LikeSys :=
  if who then
    let p := likeStep sys.store sys.a
    ⟨p.1, p.2, sys.b⟩
  else
    let p := likeStep sys.store sys.b
    ⟨p.1, sys.a, p.2⟩

/-- Run a schedule. -/
def likeSysRun (sys : LikeSys) (sched : List Bool) : LikeSys :=
  sched.foldl likeSysStep sys

/-- Both calls start before their first `get`, against a common starting
state. -/
def likeInit (likes0 : Int) (rev0 : Nat) : LikeSys :=
  ⟨⟨likes0, rev0⟩, .toGet 0, .toGet 0⟩

/-- A call has returned (successfully or not). -/
def likeDone : LikePhase → Bool
  | .retOk => true
  | .retNull => true
  | _ => false

/-! ### The query layer over fallible storage (claim C8)

For the error-propagation claim the two databases are oracles whose
`find` / `getAttachment` calls may fail; a rejected promise is an
`Except.error` and a `try/catch` in the source is a `match` that maps
both outcomes to `Except.ok`.  The Vue ref assignments
(`characters.value`, media-URL caches) carry no error behaviour and are
elided; each translated function returns the data it would have
assigned. -/

/-- The characters database with fallible operations: `findDocs sel limit
skip` and `getAtt id` (the `'media'` attachment). -/
structure CharsDbF where
  findDocs : (CharsDbDoc → Bool) → Nat → Nat → Except DbErr (List CharsDbDoc)
  getAtt : JStr → Except DbErr Unit

/-- The messages database with fallible operations. -/
structure MsgsDbF where
  findDocs : (MessageDoc → Bool) → Nat → Nat → Except DbErr (List MessageDoc)
  getAtt : JStr → Except DbErr Unit

/-- `loadMessageMediaUrl` (source lines 358-375): `getAttachment` inside
`try/catch`; a 404 is normal absence, any other error is only logged —
nothing is rethrown. -/
def loadMessageMediaUrl (msgs : MsgsDbF) (messageId : JStr) : Except DbErr Unit :=
  match msgs.getAtt messageId with
  | .ok _ => .ok ()
  | .error _ => .ok ()

/-- `loadCharacterMediaUrl` (source lines 379-396): same catch-all
shape. -/
def loadCharacterMediaUrl (chars : CharsDbF) (characterId : JStr) : Except DbErr Unit :=
  match chars.getAtt characterId with
  | .ok _ => .ok ()
  | .error _ => .ok ()

/-- The latest-comment lookup both `loadMessagesForCharacter` and
`fetchData` perform per message (`selector: { type: 'comment',
messageId, createdAt: { $gte: null } }, limit 1`). -/
def latestCommentFind (chars : CharsDbF) (messageId : JStr) :
    Except DbErr (List CharsDbDoc) :=
  chars.findDocs
    (fun d =>
      match d with
      | .comment c => decide (c.messageId = messageId)
      | .char _ => false)
    1 0

/-- The per-message body of the `for (const m of messages)` loop of
`loadMessagesForCharacter` (source lines 425-445): a comment `find` per
message.  The comment `find` is not wrapped in any `try/catch`, so its
failure propagates. -/
def projectComments (chars : CharsDbF) : List MessageDoc → Except DbErr Unit
  | [] => .ok ()
  | m :: rest => do
    let _ ← latestCommentFind chars m._id
    projectComments chars rest

/-- The media loop at the end of `loadMessagesForCharacter` (source lines
451-453): total, since `loadMessageMediaUrl` swallows every error. -/
def loadMessagesMedia (msgs : MsgsDbF) : List MessageDoc → Except DbErr Unit
  | [] => .ok ()
  | m :: rest => do
    let _ ← loadMessageMediaUrl msgs m._id
    loadMessagesMedia msgs rest

/-- `loadMessagesForCharacter` (source lines 400-454): the message `find`
(selector `{ type: 'message', characterId }` plus the sort-driving range
condition), the per-message comment `find`s, and the media loads — with
no `try/catch` anywhere, so any storage failure propagates to the
caller. -/
def loadMessagesForCharacter (chars : CharsDbF) (msgs : MsgsDbF) (characterId : JStr)
    (orderByLikes : Bool) : Except DbErr (List MessageDoc) := do
  let messageDocs ← msgs.findDocs
    (fun m =>
      decide (m.characterId = characterId) &&
        (if orderByLikes then decide (0 ≤ m.likes) else true))
    FIND_LIMIT 0
  let _ ← projectComments chars messageDocs
  let _ ← loadMessagesMedia msgs messageDocs
  return messageDocs

/-- `reloadAllMessages` (source lines 456-460): `loadMessagesForCharacter`
for each displayed character. -/
def reloadAllMessages (chars : CharsDbF) (msgs : MsgsDbF) :
    List CharsDbDoc → Except DbErr Unit
  | [] => .ok ()
  | c :: rest => do
    let _ ← loadMessagesForCharacter chars msgs c.docId false
    reloadAllMessages chars msgs rest

/-- The character-media loop shared by the fetch paths: total. -/
def loadCharactersMedia (chars : CharsDbF) : List CharsDbDoc → Except DbErr Unit
  | [] => .ok ()
  | c :: rest => do
    let _ ← loadCharacterMediaUrl chars c.docId
    loadCharactersMedia chars rest

/-- Selector predicate `{ type: 'character' }` on the characters
database. -/
def isCharDoc : CharsDbDoc → Bool
  | .char _ => true
  | .comment _ => false

/-- `fetchCharactersOnly` (source lines 554-566): the character `find`
plus the media loop, with no `try/catch` — a failing `find`
propagates. -/
def fetchCharactersOnly (chars : CharsDbF) : Except DbErr (List CharsDbDoc) := do
  let docs ← chars.findDocs isCharDoc 5000 0
  let _ ← loadCharactersMedia chars docs
  return docs

/-- The body of `fetchData` (source lines 470-548), before its `catch`:
the `onlyTopMessagesByLikes` branch runs the paged top-messages `find`,
the `$in` character `find`, the media loops and the per-message comment
`find`s; the full branch runs the character `find`, the media loop and
`reloadAllMessages`. -/
def fetchDataBody (chars : CharsDbF) (msgs : MsgsDbF) (onlyTopMessagesByLikes : Bool)
    (page : Nat) : Except DbErr Unit :=
  if onlyTopMessagesByLikes then do
    let msgDocs ← msgs.findDocs (fun m => decide (0 ≤ m.likes)) TOP_PAGE_SIZE
      (page * TOP_PAGE_SIZE)
    if msgDocs.length = 0 then return ()
    else do
      let characterIds := (msgDocs.map (fun m => m.characterId)).dedup
      let charDocs ← chars.findDocs (fun d => decide (d.docId ∈ characterIds))
        characterIds.length 0
      let _ ← loadCharactersMedia chars (charDocs.filter isCharDoc)
      let _ ← projectComments chars msgDocs
      let _ ← loadMessagesMedia msgs msgDocs
      return ()
  else do
    let docs ← chars.findDocs isCharDoc 5000 0
    let _ ← loadCharactersMedia chars docs
    reloadAllMessages chars msgs docs

/-- `fetchData` (source lines 465-552): the whole body sits inside
`try { ... } catch (err) { console.error(...) }`, so every storage
failure is caught here. -/
def fetchData (chars : CharsDbF) (msgs : MsgsDbF) (onlyTopMessagesByLikes : Bool)
    (page : Nat) : Except DbErr Unit :=
  match fetchDataBody chars msgs onlyTopMessagesByLikes page with
  | .ok _ => .ok ()
  | .error _ => .ok ()

/-! ### The sync change handler (claim C10) -/

/-- One document record of a sync `change` notification
(`info.change.docs[i]`); every field may be absent. -/
structure ChangeDoc where
  _id : Option JStr
  type : Option JStr
  messageId : Option JStr
  characterId : Option JStr
deriving DecidableEq

/-- Which replication session fired (`source: 'chars' | 'msgs'`). -/
inductive SyncSource where
  | chars
  | msgs
deriving DecidableEq

/-- The accumulated dirty-set state (`pendingCharIds`, `pendingMsgIds`,
`pendingNeedFullReload`, source lines 610-612). -/
structure PendingState where
  pendingCharIds : List JStr
  pendingMsgIds : List JStr
  pendingNeedFullReload : Bool
deriving DecidableEq

/-- JavaScript truthiness of an optional string field (absent or empty is
falsy). -/
def truthy : Option JStr → Bool
  | some s => !s.isEmpty
  | none => false

/-- `Set.prototype.add`. -/
def addToSet (s : List JStr) (x : JStr) : List JStr :=
  if x ∈ s then s else s ++ [x]

/-- The per-record classification of `handleSyncChange`'s
`for (const d of changes)` loop (source lines 660-683). -/
def classifyChange (source : SyncSource) (st : PendingState) (d : ChangeDoc) :
    PendingState :=
  match source with
  | .chars =>
    if d.type = some strCharacter ∧ truthy d._id then
      { st with pendingCharIds := addToSet st.pendingCharIds (d._id.getD []) }
    else if d.type = some strComment ∧ truthy d.messageId then
      { st with pendingMsgIds := addToSet st.pendingMsgIds (d.messageId.getD []) }
    else { st with pendingNeedFullReload := true }
  | .msgs =>
    if d.type = some strMessage ∧ truthy d._id then
      if truthy d.characterId then
        { st with pendingCharIds := addToSet st.pendingCharIds (d.characterId.getD []) }
      else { st with pendingNeedFullReload := true }
    else { st with pendingNeedFullReload := true }

/-- `handleSyncChange` (source lines 650-686).  Returns the updated
pending state and whether `scheduleTargetedRefresh` was called.  When
`isOnline` is false the notification is dropped before anything is
touched.  A missing or empty `info.change.docs` array flags a full
reload. -/
def handleSyncChange (isOnline : Bool) (st : PendingState)
    (docs : Option (List ChangeDoc)) (source : SyncSource) : PendingState × Bool :=
  if !isOnline then (st, false)
  else
    match docs with
    | none => ({ st with pendingNeedFullReload := true }, true)
    | some [] => ({ st with pendingNeedFullReload := true }, true)
    | some changes => (changes.foldl (classifyChange source) st, true)

/-! ## Store lemmas -/

theorem find?_replace_chars (l : CharsDb) (doc : CharsDbDoc)
    (h : l.any (fun d => decide (d.docId = doc.docId)) = true) :
    (l.map (fun d => if d.docId = doc.docId then doc else d)).find?
      (fun d => decide (d.docId = doc.docId)) = some doc := by
  induction l with
  | nil => simp at h
  | cons d0 rest ih =>
    by_cases h0 : d0.docId = doc.docId
    · rw [List.map_cons, if_pos h0, List.find?_cons_of_pos _ (by simp)]
    · rw [List.map_cons, if_neg h0, List.find?_cons_of_neg _ (by simpa using h0)]
      apply ih
      simpa [h0] using h

theorem find?_append_new_chars (l : CharsDb) (doc : CharsDbDoc)
    (h : ∀ x ∈ l, ¬x.docId = doc.docId) :
    (l ++ [doc]).find? (fun d => decide (d.docId = doc.docId)) = some doc := by
  induction l with
  | nil => simp
  | cons d0 rest ih =>
    rw [List.cons_append, List.find?_cons_of_neg _ (by simpa using h d0 (List.mem_cons_self _ _))]
    exact ih (fun x hx => h x (List.mem_cons_of_mem _ hx))

theorem getChars_putChars (db : CharsDb) (doc : CharsDbDoc) :
    getCharsDoc (putChars db doc) doc.docId = some doc := by
  unfold putChars getCharsDoc
  by_cases h : db.any (fun d => decide (d.docId = doc.docId)) = true
  · rw [if_pos h]
    exact find?_replace_chars db doc h
  · rw [if_neg h]
    exact find?_append_new_chars db doc (by simpa using h)

theorem mem_putChars {db : CharsDb} {doc x : CharsDbDoc} (h : x ∈ putChars db doc) :
    x = doc ∨ x ∈ db := by
  unfold putChars at h
  split at h
  · obtain ⟨y, hy, hxy⟩ := List.mem_map.mp h
    by_cases h0 : y.docId = doc.docId
    · simp [h0] at hxy
      exact Or.inl hxy.symm
    · simp [h0] at hxy
      exact Or.inr (hxy ▸ hy)
  · rcases List.mem_append.mp h with h1 | h1
    · exact Or.inr h1
    · exact Or.inl (by simpa using h1)

theorem mem_putMsgs {db : MsgsDb} {doc x : MessageDoc} (h : x ∈ putMsgs db doc) :
    x = doc ∨ x ∈ db := by
  unfold putMsgs at h
  split at h
  · obtain ⟨y, hy, hxy⟩ := List.mem_map.mp h
    by_cases h0 : y._id = doc._id
    · simp [h0] at hxy
      exact Or.inl hxy.symm
    · simp [h0] at hxy
      exact Or.inr (hxy ▸ hy)
  · rcases List.mem_append.mp h with h1 | h1
    · exact Or.inr h1
    · exact Or.inl (by simpa using h1)

/-! ## Claim theorems -/

/-- C10: whenever the online flag is false, `handleSyncChange` drops the
change notification entirely: the pending dirty sets and the full-reload
flag are untouched and no refresh is scheduled. -/
theorem C10_offline_changes_dropped (st : PendingState) (docs : Option (List ChangeDoc))
    (source : SyncSource) : handleSyncChange false st docs source = (st, false) := rfl

/-- C9: a message or comment whose entered text trims to the empty string
is not written: `addMessage` and `addComment` leave their stores
unchanged. -/
theorem C9_blank_text_writes_nothing (msgs : MsgsDb) (chars : CharsDb)
    (characterId messageId raw now now2 : JStr) (h : trim raw = []) :
    addMessage msgs characterId raw now = msgs ∧
      addComment chars messageId raw now2 = chars := by
  constructor
  · unfold addMessage
    simp [h]
  · unfold addComment
    simp [h]

/-- C9 witness: a text of one space trims to blank and writes nothing. -/
theorem C9_blank_text_writes_nothing_witness :
    trim [32] = [] ∧ addMessage [] [1] [32] [7] = [] ∧ addComment [] [2] [32] [8] = [] := by
  refine ⟨by decide, ?_⟩
  have h := C9_blank_text_writes_nothing [] [] [1] [2] [32] [7] [8] (by decide)
  exact h

/-- C1: if every put attempt fails with a revision conflict,
`saveWithConflictRetry` returns `null` after exactly 3 get-merge-put
attempts, performs no successful write (so the stored document reflects
none of the failed local merges), and the conflict is consumed by the
`catch` rather than thrown past the mutation layer (the run is
`Except.ok`). -/
theorem C1_retry_exhaustion {T : Type} (o : RetryOracle T) (mergeFn : T → T)
    (h : ∀ i d, o.putDoc i d = .error DbErr.conflict) :
    saveWithConflictRetry o mergeFn 3 = .ok ⟨none, 3, []⟩ := by
  unfold saveWithConflictRetry
  simp [retryGo, h]

/-- C1 witness: a permanently conflicted store makes the retry helper
return `null` after 3 attempts with no writes. -/
theorem C1_retry_exhaustion_witness :
    (∀ i d, (RetryOracle.mk (fun _ => (0 : Int)) (fun _ _ => .error DbErr.conflict)).putDoc i d
        = .error DbErr.conflict) ∧
      saveWithConflictRetry
          (RetryOracle.mk (fun _ => (0 : Int)) (fun _ _ => .error DbErr.conflict))
          (fun x => x + 1) 3 = .ok ⟨none, 3, []⟩ :=
  ⟨fun _ _ => rfl,
    C1_retry_exhaustion
      (RetryOracle.mk (fun _ => (0 : Int)) (fun _ _ => .error DbErr.conflict))
      (fun x => x + 1) (fun _ _ => rfl)⟩

/-- C8 (amended): `fetchData` catches every storage failure inside its
`try/catch` and returns normally, for every storage behaviour, both
fetch modes and every page; but (see the counterexample)
`loadMessagesForCharacter` and `fetchCharactersOnly` themselves
propagate storage errors to their callers. -/
theorem C8_fetchData_never_throws (chars : CharsDbF) (msgs : MsgsDbF)
    (onlyTopMessagesByLikes : Bool) (page : Nat) :
    fetchData chars msgs onlyTopMessagesByLikes page = .ok () := by
  unfold fetchData
  cases h : fetchDataBody chars msgs onlyTopMessagesByLikes page <;> simp

/-- The characters database failing every request. -/
def failingCharsDb : CharsDbF :=
  ⟨fun _ _ _ => .error .storageUnavailable, fun _ => .error .storageUnavailable⟩

/-- The messages database failing every request. -/
def failingMsgsDb : MsgsDbF :=
  ⟨fun _ _ _ => .error .storageUnavailable, fun _ => .error .storageUnavailable⟩

/-- C8 counterexample: not every query-layer read catches storage
failures — `loadMessagesForCharacter` and `fetchCharactersOnly` have no
`try/catch` and propagate the error to their callers (and via
`toggleCharSort` into the view layer). -/
theorem C8_counterexample :
    loadMessagesForCharacter failingCharsDb failingMsgsDb [] false
        = .error DbErr.storageUnavailable ∧
      fetchCharactersOnly failingCharsDb = .error DbErr.storageUnavailable :=
  ⟨rfl, rfl⟩

/-- C5: the conflict-safe character update writes the document obtained by
overwriting `name`, `age`, `affiliation`, `affiliationLower` and
`lightsaber` from the patch while `likes` becomes the maximum of the
latest stored value and the patch value — so a stale patch can never
decrease the stored `likes`. -/
theorem C5_edit_merge_preserves_likes (chars : CharsDb) (docId : JStr) (patch : EditPatch)
    (d : CharacterDoc) (h : getCharsDoc chars docId = some (.char d)) :
    getCharsDoc (saveEdit chars docId patch) docId = some (.char (mergeEdit patch d)) ∧
      (mergeEdit patch d).name = patch.name ∧
      (mergeEdit patch d).age = patch.age ∧
      (mergeEdit patch d).affiliation = patch.affiliation ∧
      (mergeEdit patch d).affiliationLower = toLower patch.affiliation ∧
      (mergeEdit patch d).lightsaber = patch.lightsaber ∧
      (mergeEdit patch d).likes = max d.likes patch.likes ∧
      d.likes ≤ (mergeEdit patch d).likes := by
  have hid : d._id = docId := by
    have := List.find?_some h
    simpa using this
  refine ⟨?_, rfl, rfl, rfl, rfl, rfl, rfl, le_max_left _ _⟩
  unfold saveEdit
  rw [h]
  have := getChars_putChars chars (.char (mergeEdit patch d))
  simpa [CharsDbDoc.docId, mergeEdit, hid] using this

/-- A sample stored character with 5 likes. -/
def sampleCharDoc : CharacterDoc :=
  { _id := [9], name := [10], age := 20, affiliation := [11], affiliationLower := [11],
    lightsaber := false, likes := 5, mediaContentType := none }

/-- A one-character store. -/
def sampleChars : CharsDb := [.char sampleCharDoc]

/-- An edit patch carrying a stale like count of 2. -/
def samplePatch : EditPatch := ⟨[12], 21, [13], true, 2⟩

/-- C5 witness: a stored character with 5 likes edited with a stale
2-like patch keeps its 5 likes. -/
theorem C5_edit_merge_preserves_likes_witness :
    getCharsDoc sampleChars [9] = some (.char sampleCharDoc) ∧
      getCharsDoc (saveEdit sampleChars [9] samplePatch) [9]
        = some (.char (mergeEdit samplePatch sampleCharDoc)) ∧
      (5 : Int) ≤ (mergeEdit samplePatch sampleCharDoc).likes := by
  have h : getCharsDoc sampleChars [9] = some (.char sampleCharDoc) := by decide
  have hthm := C5_edit_merge_preserves_likes sampleChars [9] samplePatch sampleCharDoc h
  exact ⟨h, hthm.1, hthm.2.2.2.2.2.2.2⟩

/-- C6: every create or update operation re-derives the lowercase search
field it touches, so the derived-field invariants — every stored
character satisfies `affiliationLower == lowercase(affiliation)` and
every stored message satisfies `textLower == lowercase(text)` — are
preserved by `addCharacter`, `saveEdit`, `addMessage` and
`saveEditMessage`. -/
theorem C6_derived_fields_invariant (chars : CharsDb) (msgs : MsgsDb)
    (input : NewCharacterInput) (now docId charId rawM nowM msgId newText : JStr)
    (patch : EditPatch) (hc : charsInvariant chars) (hm : msgsInvariant msgs) :
    charsInvariant (addCharacter chars input now) ∧
      charsInvariant (saveEdit chars docId patch) ∧
      msgsInvariant (addMessage msgs charId rawM nowM) ∧
      msgsInvariant (saveEditMessage msgs msgId newText) := by
  refine ⟨?_, ?_, ?_, ?_⟩
  · intro d hd
    rcases mem_putChars hd with h | h
    · subst h; simp [charsDocInv]
    · exact hc d h
  · unfold saveEdit
    split
    · intro d hd
      rcases mem_putChars hd with h | h
      · subst h; simp [charsDocInv, mergeEdit]
      · exact hc d h
    · exact hc
  · by_cases ht : trim rawM = []
    · simpa [addMessage, ht] using hm
    · simp only [addMessage, if_neg ht]
      intro m hmem
      rcases mem_putMsgs hmem with h | h
      · subst h; rfl
      · exact hm m h
  · unfold saveEditMessage
    split
    · intro m hmem
      rcases mem_putMsgs hmem with h | h
      · subst h; rfl
      · exact hm m h
    · exact hm

/-- C6 witness: the invariants hold after the four operations on a small
concrete store. -/
theorem C6_derived_fields_invariant_witness :
    charsInvariant sampleChars ∧ msgsInvariant [] ∧
      charsInvariant (addCharacter sampleChars ⟨[14], 30, [65, 66], true, 0⟩ [15]) ∧
      charsInvariant (saveEdit sampleChars [9] samplePatch) ∧
      msgsInvariant (addMessage [] [9] [72, 105] [16]) ∧
      msgsInvariant (saveEditMessage [] [17] [18]) := by
  have hc : charsInvariant sampleChars := by
    intro d hd
    simp [sampleChars] at hd
    subst hd
    decide
  have hm : msgsInvariant ([] : MsgsDb) := by intro m hmem; cases hmem
  have h := C6_derived_fields_invariant sampleChars [] ⟨[14], 30, [65, 66], true, 0⟩
    [15] [9] [9] [72, 105] [16] [17] [18] samplePatch hc hm
  exact ⟨hc, hm, h.1, h.2.1, h.2.2.1, h.2.2.2⟩

/-- C7: the top-messages query for page `p` is skip `p * 10` / limit 10
over the messages sorted by likes descending; over a 25-message store
with distinct, non-negative like counts, pages 0 and 1 are two disjoint
10-element blocks that concatenate to the top-20 ranks of the descending
sort — no overlap and no gap. -/
theorem C7_pagination (msgs : MsgsDb)
    (hlen : msgs.length = 25)
    (hpos : ∀ m ∈ msgs, 0 ≤ m.likes)
    (hdist : msgs.Pairwise (fun a b => a.likes ≠ b.likes)) :
    (topMessagesByLikes msgs 0).length = 10 ∧
      (topMessagesByLikes msgs 1).length = 10 ∧
      (∀ m ∈ topMessagesByLikes msgs 0, m ∉ topMessagesByLikes msgs 1) ∧
      topMessagesByLikes msgs 0 ++ topMessagesByLikes msgs 1
          = (msgs.insertionSort likesDesc).take 20 ∧
      List.Sorted likesDesc (msgs.insertionSort likesDesc) ∧
      (msgs.insertionSort likesDesc).Perm msgs := by
  have hfilter : msgs.filter (fun m => decide (0 ≤ m.likes)) = msgs :=
    List.filter_eq_self.mpr (fun m hm => by simpa using hpos m hm)
  have hperm : (msgs.insertionSort likesDesc).Perm msgs := List.perm_insertionSort _ _
  have hslen : (msgs.insertionSort likesDesc).length = 25 := by
    rw [hperm.length_eq, hlen]
  have hnodup : (msgs.insertionSort likesDesc).Nodup := by
    have h1 : msgs.Nodup :=
      List.Pairwise.imp (fun hab heq => hab (by rw [heq])) hdist
    exact hperm.nodup_iff.mpr h1
  have htop0 : topMessagesByLikes msgs 0 = (msgs.insertionSort likesDesc).take 10 := by
    simp [topMessagesByLikes, hfilter, TOP_PAGE_SIZE]
  have htop1 : topMessagesByLikes msgs 1
      = ((msgs.insertionSort likesDesc).drop 10).take 10 := by
    simp [topMessagesByLikes, hfilter, TOP_PAGE_SIZE]
  refine ⟨?_, ?_, ?_, ?_, List.sorted_insertionSort _ _, hperm⟩
  · rw [htop0, List.length_take, hslen]
    decide
  · rw [htop1, List.length_take, List.length_drop, hslen]
    decide
  · have hsplit : (msgs.insertionSort likesDesc).take 10 ++ (msgs.insertionSort likesDesc).drop 10
        = msgs.insertionSort likesDesc := List.take_append_drop _ _
    have hnd2 : ((msgs.insertionSort likesDesc).take 10
        ++ (msgs.insertionSort likesDesc).drop 10).Nodup := by rw [hsplit]; exact hnodup
    have hdisj := (List.nodup_append.mp hnd2).2.2
    intro m hm0 hm1
    exact hdisj (htop0 ▸ hm0) (List.take_subset _ _ (htop1 ▸ hm1))
  · rw [htop0, htop1, (by norm_num : (20 : Nat) = 10 + 10), List.take_add]

/-- A 25-message store with distinct like counts `0..24`. -/
def msgs25 : MsgsDb :=
  (List.range 25).map (fun i =>
    { _id := [i], characterId := [200], text := [], textLower := [], createdAt := [],
      likes := (i : Int), mediaContentType := none })

/-- C7 witness: over the concrete 25-message store, pages 0 and 1 are
disjoint 10-element blocks. -/
theorem C7_pagination_witness :
    msgs25.length = 25 ∧ (∀ m ∈ msgs25, 0 ≤ m.likes) ∧
      msgs25.Pairwise (fun a b => a.likes ≠ b.likes) ∧
      (topMessagesByLikes msgs25 0).length = 10 ∧
      (topMessagesByLikes msgs25 1).length = 10 ∧
      (∀ m ∈ topMessagesByLikes msgs25 0, m ∉ topMessagesByLikes msgs25 1) := by
  have h1 : msgs25.length = 25 := by decide
  have h2 : ∀ m ∈ msgs25, 0 ≤ m.likes := by decide
  have h3 : msgs25.Pairwise (fun a b => a.likes ≠ b.likes) := by decide
  have h := C7_pagination msgs25 h1 h2 h3
  exact ⟨h1, h2, h3, h.1, h.2.1, h.2.2.1⟩

theorem mem_bulkDeleteMsgs {db : MsgsDb} {ids : List JStr} {m : MessageDoc} :
    m ∈ bulkDeleteMsgs db ids ↔ m ∈ db ∧ m._id ∉ ids := by
  simp [bulkDeleteMsgs, List.mem_filter]

theorem mem_bulkDeleteChars {db : CharsDb} {ids : List JStr} {d : CharsDbDoc} :
    d ∈ bulkDeleteChars db ids ↔ d ∈ db ∧ d.docId ∉ ids := by
  simp [bulkDeleteChars, List.mem_filter]

theorem removeWithRetry_subset (db : CharsDb) (i : JStr) :
    (removeWithRetry db i).1 ⊆ db := by
  unfold removeWithRetry
  cases h : getCharsDoc db i with
  | none => exact fun x hx => hx
  | some dd => exact fun x hx => (List.mem_filter.mp hx).1

theorem removeWithRetry_no_id (db : CharsDb) (i : JStr) :
    ∀ d ∈ (removeWithRetry db i).1, d.docId ≠ i := by
  unfold removeWithRetry
  cases h : getCharsDoc db i with
  | none =>
    intro d hd
    have := List.find?_eq_none.mp h d hd
    simpa using this
  | some dd =>
    intro d hd
    have := (List.mem_filter.mp hd).2
    simpa using this

/-- C3 (amended): provided the character has at most 5000 messages and
those messages have at most 5000 comments in total (the `find` limits of
`deleteCharacter`), the cascade leaves no message with that
`characterId`, no comment whose `messageId` belonged to one of those
messages, and no document under the character's id. -/
theorem C3_cascade_bounded (chars : CharsDb) (msgs : MsgsDb) (characterId : JStr)
    (hm : (messagesOf msgs characterId).length ≤ FIND_LIMIT)
    (hc : (commentsOf chars ((messagesOf msgs characterId).map (fun m => m._id))).length
        ≤ FIND_LIMIT) :
    (∀ m ∈ (deleteCharacter chars msgs characterId).2, m.characterId ≠ characterId) ∧
      (∀ c : CommentDoc, CharsDbDoc.comment c ∈ (deleteCharacter chars msgs characterId).1 →
        c.messageId ∉ (messagesOf msgs characterId).map (fun m => m._id)) ∧
      (∀ d ∈ (deleteCharacter chars msgs characterId).1, d.docId ≠ characterId) := by
  have htakeM : (messagesOf msgs characterId).take FIND_LIMIT = messagesOf msgs characterId :=
    List.take_of_length_le hm
  have htakeC : (commentsOf chars ((messagesOf msgs characterId).map (fun m => m._id))).take
      FIND_LIMIT = commentsOf chars ((messagesOf msgs characterId).map (fun m => m._id)) :=
    List.take_of_length_le hc
  by_cases h0 : (messagesOf msgs characterId).length = 0
  · have hMnil : messagesOf msgs characterId = [] := List.length_eq_zero.mp h0
    have hdel : deleteCharacter chars msgs characterId
        = ((removeWithRetry chars characterId).1, msgs) := by
      simp [deleteCharacter, htakeM, hMnil]
    rw [hdel]
    refine ⟨?_, ?_, ?_⟩
    · intro m hm' heq
      have hmem : m ∈ messagesOf msgs characterId :=
        List.mem_filter.mpr ⟨hm', by simpa using heq⟩
      rw [hMnil] at hmem
      cases hmem
    · intro c _ hmem
      rw [hMnil] at hmem
      simp at hmem
    · exact removeWithRetry_no_id chars characterId
  · by_cases hC0 :
        (commentsOf chars ((messagesOf msgs characterId).map (fun m => m._id))).length = 0
    · have hCnil := List.length_eq_zero.mp hC0
      have hdel : deleteCharacter chars msgs characterId
          = ((removeWithRetry chars characterId).1,
              bulkDeleteMsgs msgs ((messagesOf msgs characterId).map (fun m => m._id))) := by
        simp [deleteCharacter, htakeM, htakeC, h0, hCnil]
      rw [hdel]
      refine ⟨?_, ?_, ?_⟩
      · intro m hm' heq
        have hmem : m ∈ messagesOf msgs characterId :=
          List.mem_filter.mpr ⟨(mem_bulkDeleteMsgs.mp hm').1, by simpa using heq⟩
        exact (mem_bulkDeleteMsgs.mp hm').2 (List.mem_map_of_mem _ hmem)
      · intro c hc' hmem
        have hcc : CharsDbDoc.comment c
            ∈ commentsOf chars ((messagesOf msgs characterId).map (fun m => m._id)) := by
          refine List.mem_filter.mpr ⟨removeWithRetry_subset _ _ hc', ?_⟩
          simpa using hmem
        rw [hCnil] at hcc
        cases hcc
      · exact removeWithRetry_no_id _ characterId
    · have hdel : deleteCharacter chars msgs characterId
          = ((removeWithRetry
                (bulkDeleteChars chars
                  ((commentsOf chars
                      ((messagesOf msgs characterId).map (fun m => m._id))).map
                    CharsDbDoc.docId))
                characterId).1,
              bulkDeleteMsgs msgs ((messagesOf msgs characterId).map (fun m => m._id))) := by
        simp [deleteCharacter, htakeM, htakeC, h0, hC0]
      rw [hdel]
      refine ⟨?_, ?_, ?_⟩
      · intro m hm' heq
        have hmem : m ∈ messagesOf msgs characterId :=
          List.mem_filter.mpr ⟨(mem_bulkDeleteMsgs.mp hm').1, by simpa using heq⟩
        exact (mem_bulkDeleteMsgs.mp hm').2 (List.mem_map_of_mem _ hmem)
      · intro c hc' hmem
        have hc1 := removeWithRetry_subset _ characterId hc'
        have hc2 := mem_bulkDeleteChars.mp hc1
        have hcc : CharsDbDoc.comment c
            ∈ commentsOf chars ((messagesOf msgs characterId).map (fun m => m._id)) := by
          refine List.mem_filter.mpr ⟨hc2.1, ?_⟩
          simpa using hmem
        exact hc2.2 (List.mem_map_of_mem CharsDbDoc.docId hcc)
      · exact removeWithRetry_no_id _ characterId

/-- A sample message under the sample character. -/
def sampleMsgDoc : MessageDoc :=
  { _id := [30], characterId := [9], text := [31], textLower := [31], createdAt := [32],
    likes := 1, mediaContentType := none }

/-- A sample comment on the sample message, stored in the characters
database. -/
def sampleCmtDoc : CommentDoc := { _id := [33], messageId := [30], text := [34], createdAt := [35] }

/-- C3 witness: deleting the sample character tombstones its message, the
message's comment and the character itself. -/
theorem C3_cascade_bounded_witness :
    (messagesOf [sampleMsgDoc] [9]).length ≤ FIND_LIMIT ∧
      (commentsOf [CharsDbDoc.char sampleCharDoc, CharsDbDoc.comment sampleCmtDoc]
          ((messagesOf [sampleMsgDoc] [9]).map (fun m => m._id))).length ≤ FIND_LIMIT ∧
      (∀ m ∈ (deleteCharacter [CharsDbDoc.char sampleCharDoc, CharsDbDoc.comment sampleCmtDoc]
          [sampleMsgDoc] [9]).2, m.characterId ≠ [9]) ∧
      (∀ d ∈ (deleteCharacter [CharsDbDoc.char sampleCharDoc, CharsDbDoc.comment sampleCmtDoc]
          [sampleMsgDoc] [9]).1, d.docId ≠ [9]) := by
  have h1 : (messagesOf [sampleMsgDoc] [9]).length ≤ FIND_LIMIT := by decide
  have h2 : (commentsOf [CharsDbDoc.char sampleCharDoc, CharsDbDoc.comment sampleCmtDoc]
      ((messagesOf [sampleMsgDoc] [9]).map (fun m => m._id))).length ≤ FIND_LIMIT := by decide
  have h := C3_cascade_bounded [CharsDbDoc.char sampleCharDoc, CharsDbDoc.comment sampleCmtDoc]
    [sampleMsgDoc] [9] h1 h2
  exact ⟨h1, h2, h.1, h.2.2⟩

/-- The id of an over-populated character. -/
def bigCid : JStr := [7]

/-- The `i`-th message of the over-populated character. -/
def mkBigMsg (i : Nat) : MessageDoc :=
  { _id := [i], characterId := bigCid, text := [], textLower := [], createdAt := [],
    likes := 0, mediaContentType := none }

/-- A messages store holding 5001 messages of the same character — one
more than `deleteCharacter`'s `find` limit. -/
def bigMsgs : MsgsDb := (List.range 5001).map mkBigMsg

/-- C3 counterexample: with 5001 messages under one character, the
message `find` of `deleteCharacter` is capped at `LIMIT = 5000`, so
after the cascade one message with the deleted `characterId` is still
retrievable — the claim's universal cascade completeness fails. -/
theorem C3_counterexample :
    mkBigMsg 5000 ∈ (deleteCharacter [] bigMsgs bigCid).2 ∧
      (mkBigMsg 5000).characterId = bigCid := by
  have hfilter : messagesOf bigMsgs bigCid = bigMsgs := by
    refine List.filter_eq_self.mpr ?_
    intro m hm
    obtain ⟨i, _, rfl⟩ := List.mem_map.mp hm
    simp [mkBigMsg]
  have htake : (messagesOf bigMsgs bigCid).take FIND_LIMIT
      = (List.range 5000).map mkBigMsg := by
    rw [hfilter]
    show bigMsgs.take 5000 = _
    have h1 : bigMsgs = (List.range 5000).map mkBigMsg ++ [mkBigMsg 5000] := by
      unfold bigMsgs
      rw [(by norm_num : (5001 : Nat) = 5000 + 1), List.range_succ, List.map_append]
      rfl
    rw [h1]
    exact List.take_left' (by simp)
  have hdel : (deleteCharacter [] bigMsgs bigCid).2
      = bulkDeleteMsgs bigMsgs (((List.range 5000).map mkBigMsg).map (fun m => m._id)) := by
    simp [deleteCharacter, htake, commentsOf]
  have hids : ((List.range 5000).map mkBigMsg).map (fun m => m._id)
      = (List.range 5000).map (fun i => [i]) := by
    rw [List.map_map]
    rfl
  refine ⟨?_, rfl⟩
  rw [hdel, hids]
  refine mem_bulkDeleteMsgs.mpr ⟨?_, ?_⟩
  · exact List.mem_map_of_mem _ (List.mem_range.mpr (by norm_num))
  · intro hmem
    obtain ⟨i, hi, heq⟩ := List.mem_map.mp hmem
    have hieq : i = 5000 := by simpa [mkBigMsg] using heq
    rw [hieq] at hi
    exact absurd (List.mem_range.mp hi) (by norm_num)

/-! ## Code-unit order lemmas for the range search -/

theorem jstr_lt_cons_iff {a b : Nat} {q t : JStr} :
    (a :: q : JStr) < (b :: t) ↔ a < b ∨ (a = b ∧ q < t) := by
  constructor
  · intro h
    have h' : List.Lex (· < ·) (a :: q) (b :: t) := h
    cases h' with
    | cons h1 => exact Or.inr ⟨rfl, h1⟩
    | rel h1 => exact Or.inl h1
  · intro h
    rcases h with h1 | ⟨rfl, h2⟩
    · exact List.Lex.rel h1
    · exact List.Lex.cons h2

theorem jstr_cons_not_le_nil {a : Nat} {q : JStr} : ¬(a :: q : JStr) ≤ [] := by
  intro h
  rcases lt_or_eq_of_le h with h1 | h1
  · have h' : List.Lex (· < ·) (a :: q) [] := h1
    cases h'
  · cases h1

theorem jstr_le_cons_iff {a b : Nat} {q t : JStr} :
    (a :: q : JStr) ≤ (b :: t) ↔ a < b ∨ (a = b ∧ q ≤ t) := by
  rw [le_iff_lt_or_eq, le_iff_lt_or_eq, jstr_lt_cons_iff, List.cons.injEq]
  tauto

/-- `t` begins with `q` (the prefix relation on code-unit lists). -/
def startsWithB : JStr → JStr → Bool
  | [], _ => true
  | _ :: _, [] => false
  | a :: q, b :: t => decide (a = b) && startsWithB q t

theorem startsWithB_exists {q t : JStr} :
    startsWithB q t = true ↔ ∃ r, t = q ++ r := by
  induction q generalizing t with
  | nil => simp [startsWithB]
  | cons a q ih =>
    cases t with
    | nil =>
      simp only [startsWithB]
      constructor
      · intro h; cases h
      · rintro ⟨r, h⟩; cases h
    | cons b t =>
      simp only [startsWithB, Bool.and_eq_true, decide_eq_true_iff, List.cons_append,
        List.cons.injEq, ih]
      constructor
      · rintro ⟨rfl, r, rfl⟩; exact ⟨r, rfl, rfl⟩
      · rintro ⟨r, rfl, rfl⟩; exact ⟨rfl, r, rfl⟩

theorem jstr_le_append (q r : JStr) : q ≤ q ++ r := by
  induction q with
  | nil => simp
  | cons a q ih =>
    rw [List.cons_append]
    exact jstr_le_cons_iff.mpr (Or.inr ⟨rfl, ih⟩)

theorem jstr_append_le_sentinel (q r : JStr) (h : ∀ c ∈ r, c < 65535) :
    q ++ r ≤ q ++ [65535] := by
  induction q with
  | nil =>
    simp only [List.nil_append]
    cases r with
    | nil => exact List.nil_le
    | cons c r' => exact jstr_le_cons_iff.mpr (Or.inl (h c (List.mem_cons_self _ _)))
  | cons a q ih =>
    rw [List.cons_append, List.cons_append]
    exact jstr_le_cons_iff.mpr (Or.inr ⟨rfl, ih⟩)

theorem range_imp_startsWith (q t : JStr) (h1 : q ≤ t) (h2 : t ≤ q ++ [65535]) :
    startsWithB q t = true := by
  induction q generalizing t with
  | nil => rfl
  | cons a q ih =>
    cases t with
    | nil => exact absurd h1 jstr_cons_not_le_nil
    | cons b t =>
      rw [List.cons_append] at h2
      rcases jstr_le_cons_iff.mp h1 with hab | ⟨rfl, hqt⟩
      · rcases jstr_le_cons_iff.mp h2 with hba | ⟨hba, _⟩
        · exact absurd hba (lt_asymm hab)
        · exact absurd hab (hba ▸ lt_irrefl b)
      · rcases jstr_le_cons_iff.mp h2 with hba | ⟨_, ht⟩
        · exact absurd hba (lt_irrefl a)
        · simpa [startsWithB] using ih t hqt ht

/-- For a text none of whose code units is the maximal unit `0xFFFF`, the
range `q <= t <= q ++ [0xFFFF]` is exactly "`t` begins with `q`".  (The
counterexample to the raw claim lives at texts that do contain
`0xFFFF`.) -/
theorem range_iff_startsWith (q t : JStr) (h : ∀ c ∈ t, c < 65535) :
    (q ≤ t ∧ t ≤ q ++ [65535]) ↔ startsWithB q t = true := by
  constructor
  · rintro ⟨h1, h2⟩
    exact range_imp_startsWith q t h1 h2
  · intro hs
    obtain ⟨r, rfl⟩ := startsWithB_exists.mp hs
    exact ⟨jstr_le_append q r,
      jstr_append_le_sentinel q r (fun c hc => h c (List.mem_append_right q hc))⟩

/-- C4 (amended): for a non-blank query over messages whose `textLower`
contains no maximal code unit `0xFFFF`, `searchMessages` returns exactly
the stored messages whose `textLower` begins with
`lowercase(trim(q))` — sorted by `textLower` ascending then `createdAt`
descending and capped at 500 results (the membership equivalence holding
whenever at most 500 messages match). -/
theorem C4_prefix_search (msgs : MsgsDb) (input : JStr)
    (hq : trim input ≠ [])
    (hcu : ∀ m ∈ msgs, ∀ c ∈ m.textLower, c < 65535) :
    ∃ L, searchMessages msgs input = some L ∧
      List.Sorted searchRel L ∧
      L.length ≤ 500 ∧
      (∀ m ∈ L, m ∈ msgs ∧ startsWithB (toLower (trim input)) m.textLower = true) ∧
      ((msgs.filter (fun m => startsWithB (toLower (trim input)) m.textLower)).length ≤ 500 →
        ∀ m ∈ msgs, startsWithB (toLower (trim input)) m.textLower = true → m ∈ L) := by
  have hqne : toLower (trim input) ≠ [] := by
    simpa [toLower, List.map_eq_nil_iff] using hq
  have hfeq : msgs.filter (fun m =>
        decide (toLower (trim input) ≤ m.textLower) &&
          decide (m.textLower ≤ toLower (trim input) ++ [65535]))
      = msgs.filter (fun m => startsWithB (toLower (trim input)) m.textLower) := by
    refine List.filter_congr ?_
    intro m hm
    apply Bool.eq_iff_iff.mpr
    rw [Bool.and_eq_true, decide_eq_true_iff, decide_eq_true_iff]
    exact range_iff_startsWith _ m.textLower (hcu m hm)
  have hsearch : searchMessages msgs input
      = some (((msgs.filter
            (fun m => startsWithB (toLower (trim input)) m.textLower)).insertionSort
          searchRel).take 500) := by
    simp only [searchMessages]
    rw [if_neg hqne, hfeq]
  refine ⟨_, hsearch, ?_, List.length_take_le _ _, ?_, ?_⟩
  · exact (List.sorted_insertionSort searchRel _).sublist (List.take_sublist _ _)
  · intro m hm
    have h1 : m ∈ (msgs.filter
        (fun m => startsWithB (toLower (trim input)) m.textLower)).insertionSort searchRel :=
      List.take_subset _ _ hm
    have h2 := (List.perm_insertionSort searchRel _).subset h1
    exact ⟨(List.mem_filter.mp h2).1, (List.mem_filter.mp h2).2⟩
  · intro hlen m hm hsw
    have hlen2 : ((msgs.filter
        (fun m => startsWithB (toLower (trim input)) m.textLower)).insertionSort
          searchRel).length ≤ 500 := by
      rw [List.length_insertionSort]
      exact hlen
    rw [List.take_of_length_le hlen2]
    exact (List.perm_insertionSort searchRel _).mem_iff.mpr (List.mem_filter.mpr ⟨hm, hsw⟩)

/-- Two sample messages, one matching the prefix `he`, one not. -/
def sampleSearchMsgs : MsgsDb :=
  [{ _id := [50], characterId := [41], text := [72, 101, 121], textLower := [104, 101, 121],
     createdAt := [51], likes := 0, mediaContentType := none },
   { _id := [52], characterId := [41], text := [78, 111], textLower := [110, 111],
     createdAt := [53], likes := 0, mediaContentType := none }]

/-- C4 witness: searching `He` over the sample store returns exactly the
message whose `textLower` starts with `he`. -/
theorem C4_prefix_search_witness :
    trim [72, 101] ≠ [] ∧
      (∀ m ∈ sampleSearchMsgs, ∀ c ∈ m.textLower, c < 65535) ∧
      ∃ L, searchMessages sampleSearchMsgs [72, 101] = some L ∧
        (∀ m ∈ L, m ∈ sampleSearchMsgs ∧
          startsWithB (toLower (trim [72, 101])) m.textLower = true) ∧
        (∀ m ∈ sampleSearchMsgs,
          startsWithB (toLower (trim [72, 101])) m.textLower = true → m ∈ L) := by
  have h1 : trim [72, 101] ≠ [] := by decide
  have h2 : ∀ m ∈ sampleSearchMsgs, ∀ c ∈ m.textLower, c < 65535 := by decide
  obtain ⟨L, hL, _, _, hsound, hcomplete⟩ := C4_prefix_search sampleSearchMsgs [72, 101] h1 h2
  refine ⟨h1, h2, L, hL, hsound, hcomplete (by decide)⟩

/-- A stored message whose `textLower` is `a￿￿` — it begins with `a` but
lies above the sentinel upper bound `a￿`. -/
def sentinelMsg : MessageDoc :=
  { _id := [40], characterId := [41], text := [97, 65535, 65535], textLower := [97, 65535, 65535],
    createdAt := [42], likes := 0, mediaContentType := none }

/-- C4 counterexample: the range query is not exactly prefix matching —
for the query `a`, the stored message with `textLower = a￿￿` begins
with the query but `searchMessages` returns the empty list, because
`a￿￿ > a￿` falls outside the `$lte` sentinel bound. -/
theorem C4_counterexample :
    sentinelMsg ∈ ([sentinelMsg] : MsgsDb) ∧
      startsWithB (toLower (trim [97])) sentinelMsg.textLower = true ∧
      searchMessages [sentinelMsg] [97] = some [] := by
  refine ⟨by simp, by decide, by decide⟩

/-! ## The two-writer invariant for concurrent likes -/

/-- 1 when this call has already performed its successful put, else 0. -/
def likeSucc : LikePhase → Nat
  | .retOk => 1
  | _ => 0

/-- Per-call invariant, relative to the starting state `(l0, r0)`, the
current store and the other call's success count `sOther`: a pending
merged document was built on top of revision `r0 + k` (whose likes value
was `l0 + k`), and the call has burnt at most as many attempts as the
other call has completed puts (counting a pending-stale put as one more
burnt attempt). -/
def likePhaseInv (l0 : Int) (r0 : Nat) (st : LikeDoc) (sOther : Nat) : LikePhase → Prop
  | .toGet attempt => attempt ≤ sOther
  | .toPut attempt m =>
      (∃ k, m.rev = r0 + k ∧ m.likes = l0 + (k : Int) + 1 ∧ m.rev ≤ st.rev) ∧
        attempt + (if m.rev = st.rev then 0 else 1) ≤ sOther
  | .retOk => True
  | .retNull => False

/-- System invariant: the revision counts the successful puts, the stored
likes value counts them on top of `l0`, and both calls satisfy their
per-call invariant.  In particular no call has returned `null`. -/
def likeInv (l0 : Int) (r0 : Nat) (sys : LikeSys) : Prop :=
  sys.store.rev = r0 + likeSucc sys.a + likeSucc sys.b ∧
    sys.store.likes = l0 + (likeSucc sys.a : Int) + (likeSucc sys.b : Int) ∧
    likePhaseInv l0 r0 sys.store (likeSucc sys.b) sys.a ∧
    likePhaseInv l0 r0 sys.store (likeSucc sys.a) sys.b

theorem likeSucc_le_one (p : LikePhase) : likeSucc p ≤ 1 := by
  cases p <;> simp [likeSucc]

theorem likeSucc_toGet (n : Nat) : likeSucc (.toGet n) = 0 := rfl

theorem likeSucc_toPut (n : Nat) (m : LikeDoc) : likeSucc (.toPut n m) = 0 := rfl

theorem likeSucc_retOk : likeSucc .retOk = 1 := rfl

theorem likeInv_swap {l0 : Int} {r0 : Nat} {st : LikeDoc} {a b : LikePhase}
    (h : likeInv l0 r0 ⟨st, a, b⟩) : likeInv l0 r0 ⟨st, b, a⟩ := by
  obtain ⟨h1, h2, h3, h4⟩ := h
  dsimp only at h1 h2 h3 h4
  refine ⟨?_, ?_, h4, h3⟩
  · dsimp only
    omega
  · dsimp only
    rw [h2]
    ring

theorem likeInv_step_a {l0 : Int} {r0 : Nat} {st : LikeDoc} {a b : LikePhase}
    (h : likeInv l0 r0 ⟨st, a, b⟩) :
    likeInv l0 r0 ⟨(likeStep st a).1, (likeStep st a).2, b⟩ := by
  obtain ⟨h1, h2, h3, h4⟩ := h
  dsimp only at h1 h2 h3 h4
  cases a with
  | toGet attempt =>
    have h3' : attempt ≤ likeSucc b := h3
    rw [likeSucc_toGet] at h1 h2
    refine ⟨?_, ?_, ?_, h4⟩
    · show st.rev = r0 + 0 + likeSucc b
      omega
    · show st.likes = l0 + ((0 : Nat) : Int) + (likeSucc b : Int)
      exact h2
    · show (∃ k, st.rev = r0 + k ∧ st.likes + 1 = l0 + (k : Int) + 1 ∧ st.rev ≤ st.rev) ∧
        attempt + (if st.rev = st.rev then 0 else 1) ≤ likeSucc b
      rw [if_pos rfl]
      exact ⟨⟨likeSucc b, by omega, by rw [h2]; push_cast; ring, le_refl _⟩, by omega⟩
  | toPut attempt m =>
    have h3' : (∃ k, m.rev = r0 + k ∧ m.likes = l0 + (k : Int) + 1 ∧ m.rev ≤ st.rev) ∧
        attempt + (if m.rev = st.rev then 0 else 1) ≤ likeSucc b := h3
    obtain ⟨⟨k, hk1, hk2, hk3⟩, hatt⟩ := h3'
    rw [likeSucc_toPut] at h1 h2
    by_cases hrev : m.rev = st.rev
    · have hstep : likeStep st (.toPut attempt m)
          = ({ likes := m.likes, rev := st.rev + 1 }, .retOk) := by
        simp [likeStep, hrev]
      rw [hstep]
      refine ⟨?_, ?_, trivial, ?_⟩
      · show st.rev + 1 = r0 + 1 + likeSucc b
        omega
      · show m.likes = l0 + ((1 : Nat) : Int) + (likeSucc b : Int)
        omega
      · show likePhaseInv l0 r0 { likes := m.likes, rev := st.rev + 1 } (likeSucc .retOk) b
        cases b with
        | toGet ab =>
          have h4' : ab ≤ likeSucc (LikePhase.toPut attempt m) := h4
          rw [likeSucc_toPut] at h4'
          show ab ≤ 1
          omega
        | toPut ab mb =>
          have h4' : (∃ kb, mb.rev = r0 + kb ∧ mb.likes = l0 + (kb : Int) + 1 ∧
              mb.rev ≤ st.rev) ∧
              ab + (if mb.rev = st.rev then 0 else 1) ≤ likeSucc (LikePhase.toPut attempt m) :=
            h4
          rw [likeSucc_toPut] at h4'
          obtain ⟨⟨kb, hkb1, hkb2, hkb3⟩, hattb⟩ := h4'
          have hab0 : ab = 0 := by
            by_cases hmb : mb.rev = st.rev
            · rw [if_pos hmb] at hattb; omega
            · rw [if_neg hmb] at hattb; omega
          show (∃ kb, mb.rev = r0 + kb ∧ mb.likes = l0 + (kb : Int) + 1 ∧
              mb.rev ≤ st.rev + 1) ∧
            ab + (if mb.rev = st.rev + 1 then 0 else 1) ≤ 1
          refine ⟨⟨kb, hkb1, hkb2, by omega⟩, ?_⟩
          split <;> omega
        | retOk => trivial
        | retNull => exact (h4 : False).elim
    · have hlt : attempt + 1 < 3 := by
        rw [if_neg hrev] at hatt
        have := likeSucc_le_one b
        omega
      have hstep : likeStep st (.toPut attempt m) = (st, .toGet (attempt + 1)) := by
        simp [likeStep, hrev, hlt]
      rw [hstep]
      refine ⟨h1, h2, ?_, h4⟩
      show attempt + 1 ≤ likeSucc b
      rw [if_neg hrev] at hatt
      omega
  | retOk => exact ⟨h1, h2, h3, h4⟩
  | retNull => exact (h3 : False).elim

theorem likeInv_step (l0 : Int) (r0 : Nat) (sys : LikeSys) (who : Bool)
    (h : likeInv l0 r0 sys) : likeInv l0 r0 (likeSysStep sys who) := by
  obtain ⟨st, a, b⟩ := sys
  cases who
  · have h' := likeInv_swap (likeInv_step_a (likeInv_swap h))
    simpa [likeSysStep] using h'
  · simpa [likeSysStep] using likeInv_step_a h

theorem likeInv_run (l0 : Int) (r0 : Nat) (sched : List Bool) (sys : LikeSys)
    (h : likeInv l0 r0 sys) : likeInv l0 r0 (likeSysRun sys sched) := by
  induction sched generalizing sys with
  | nil => exact h
  | cons w rest ih => exact ih _ (likeInv_step _ _ _ _ h)

theorem likeInv_init (l0 : Int) (r0 : Nat) : likeInv l0 r0 (likeInit l0 r0) := by
  refine ⟨?_, ?_, ?_, ?_⟩ <;> simp [likeInit, likeSucc, likePhaseInv]

/-- C2: under every interleaving of two concurrent `likeCharacter` calls
on the same document (each a `saveWithConflictRetry` whose merge
re-reads the latest revision and increments it), once both calls have
returned, both returned successfully — neither exhausted its retries —
and the stored likes value is the initial value plus 2: neither
increment is lost. -/
theorem C2_concurrent_likes (likes0 : Int) (rev0 : Nat) (sched : List Bool)
    (h : likeDone (likeSysRun (likeInit likes0 rev0) sched).a = true ∧
      likeDone (likeSysRun (likeInit likes0 rev0) sched).b = true) :
    (likeSysRun (likeInit likes0 rev0) sched).a = .retOk ∧
      (likeSysRun (likeInit likes0 rev0) sched).b = .retOk ∧
      (likeSysRun (likeInit likes0 rev0) sched).store.likes = likes0 + 2 := by
  obtain ⟨ha, hb⟩ := h
  obtain ⟨h1, h2, h3, h4⟩ := likeInv_run likes0 rev0 sched _ (likeInv_init likes0 rev0)
  have hA : (likeSysRun (likeInit likes0 rev0) sched).a = .retOk := by
    cases hh : (likeSysRun (likeInit likes0 rev0) sched).a with
    | toGet attempt => rw [hh] at ha; cases ha
    | toPut attempt m => rw [hh] at ha; cases ha
    | retOk => rfl
    | retNull => rw [hh] at h3; exact h3.elim
  have hB : (likeSysRun (likeInit likes0 rev0) sched).b = .retOk := by
    cases hh : (likeSysRun (likeInit likes0 rev0) sched).b with
    | toGet attempt => rw [hh] at hb; cases hb
    | toPut attempt m => rw [hh] at hb; cases hb
    | retOk => rfl
    | retNull => rw [hh] at h4; exact h4.elim
  refine ⟨hA, hB, ?_⟩
  rw [hA, hB] at h2
  rw [likeSucc_retOk] at h2
  rw [h2]
  omega

/-- C2 witness: the canonical conflicting interleaving — both calls read
the same revision, the first put wins, the second conflicts, re-reads
and succeeds on retry — ends with both calls successful and `likes =
0 + 2`. -/
theorem C2_concurrent_likes_witness :
    (likeDone (likeSysRun (likeInit 0 0) [true, false, true, false, false, false]).a = true ∧
      likeDone (likeSysRun (likeInit 0 0) [true, false, true, false, false, false]).b = true) ∧
      (likeSysRun (likeInit 0 0) [true, false, true, false, false, false]).store.likes
        = 0 + 2 := by
  have hd : likeDone (likeSysRun (likeInit 0 0) [true, false, true, false, false, false]).a
        = true ∧
      likeDone (likeSysRun (likeInit 0 0) [true, false, true, false, false, false]).b = true := by
    decide
  exact ⟨hd, (C2_concurrent_likes 0 0 [true, false, true, false, false, false] hd).2.2⟩

end InfraDon2
